import Mathlib

/-!
Formal model of the pinhole repository (client/server UI framework).
Each Rust function relevant to the verified properties is translated into
an executable Lean definition; hash maps are modelled as association
lists, the file system as a function from paths to parsed JSON values,
and byte streams as lists of byte values.
-/

namespace Pinhole

/-- Model of pinhole-protocol/src/storage.rs StateValue.
The f64 payload of Number is modelled as Lean Float; no claim inspects it. -/
inductive StateValue where
  | empty
  | null
  | bool (b : Bool)
  | number (n : Float)
  | string (s : String)
  | array (xs : List StateValue)
  | object (fields : List (String × StateValue))

/-- Association-list model of std HashMap with String keys. -/
abbrev AList (α : Type) := List (String × α)

/-- Lookup of a key in the association-list model of a HashMap. -/
def alistLookup {α : Type} (m : AList α) (k : String) : Option α :=
  match m with
  | [] => none
  | (k2, v) :: rest => if k2 = k then some v else alistLookup rest k

/-- Removal of all bindings of a key, used to model binding replacement. -/
def alistRemove {α : Type} (m : AList α) (k : String) : AList α :=
  match m with
  | [] => []
  | (k2, v) :: rest => if k2 = k then alistRemove rest k else (k2, v) :: alistRemove rest k

/-- Model of HashMap::insert: the new binding replaces any old binding of the key. -/
def alistInsert {α : Type} (m : AList α) (k : String) (v : α) : AList α :=
  (k, v) :: alistRemove m k

/-- Keys of a map in insertion model. -/
def alistKeys {α : Type} (m : AList α) : List String :=
  m.map Prod.fst

/-- Model of HashMap::extend: insert every entry of the second map into the first. -/
def alistExtend {α : Type} (base m2 : AList α) : AList α :=
  m2.foldl (fun acc kv => alistInsert acc kv.1 kv.2) base

/-- Model of pinhole-protocol StateMap = HashMap of String to StateValue. -/
abbrev StateMap := AList StateValue

/-- Model of pinhole-protocol StorageScope. -/
inductive StorageScope where
  | persistent
  | session
  | local
deriving DecidableEq

/-- Model of pinhole-client/src/storage.rs StorageManager state.
The PathBuf storage_dir is modelled as a path string. -/
structure StorageManager where
  persistent_storage : StateMap
  session_storage : StateMap
  local_storage : StateMap
  current_route : Option String
  storage_dir : String
  origin : String

/-- Model of StorageManager::get_all_storage: start from an empty map and
extend with persistent, then session, then local storage, so local wins
conflicts, then session, then persistent. -/
def StorageManager.get_all_storage (sm : StorageManager) : StateMap :=
  alistExtend (alistExtend (alistExtend [] sm.persistent_storage) sm.session_storage)
    sm.local_storage

/-- Model of StorageManager::get: look the key up in the map of the given scope. -/
def StorageManager.get (sm : StorageManager) (scope : StorageScope) (key : String) :
    Option StateValue :=
  match scope with
  | .persistent => alistLookup sm.persistent_storage key
  | .session => alistLookup sm.session_storage key
  | .local => alistLookup sm.local_storage key

/-- Model of pinhole-framework/src/router.rs Segment. -/
inductive Segment where
  | literal (s : String)
  | param (name : String)
deriving DecidableEq

/-- Model of str::split on a separator character: splits the character list
at every separator, keeping empty pieces (as Rust split does). -/
def splitCharsAux (sep : Char) : List Char → List Char → List (List Char)
  | [], acc => [acc.reverse]
  | c :: cs, acc =>
    if c = sep then acc.reverse :: splitCharsAux sep cs [] else splitCharsAux sep cs (c :: acc)

/-- Model of path.split on slash followed by filtering out empty segments,
as done by both RoutePattern::new and RoutePattern::matches. -/
def splitSegs (s : String) : List String :=
  ((splitCharsAux '/' s.data []).filter (fun seg => !seg.isEmpty)).map (fun seg => String.mk seg)

/-- Model of str::strip_prefix with a colon: some remainder when the segment
starts with a colon, none otherwise. -/
def stripColon (s : String) : Option String :=
  match s.data with
  | [] => none
  | c :: rest => if c = ':' then some (String.mk rest) else none

/-- Parse one pattern segment: a leading colon makes a placeholder, anything
else is a literal segment. -/
def parseSeg (s : String) : Segment :=
  match stripColon s with
  | some name => .param name
  | none => .literal s

/-- Model of router.rs Params = HashMap of String to String. -/
abbrev Params := AList String

/-- Model of pinhole-framework/src/router.rs RoutePattern. -/
structure RoutePattern where
  pattern : String
  segments : List Segment

/-- Model of RoutePattern::new: split the pattern on slashes, drop empty
segments, and classify each segment as placeholder or literal. -/
def RoutePattern.new (pattern : String) : RoutePattern :=
  ⟨pattern, (splitSegs pattern).map parseSeg⟩

/-- Model of the matching loop of RoutePattern::matches: walk the pattern
segments and path segments in lockstep, requiring literal equality and
binding placeholders into the params map. -/
def matchSegments : List Segment → List String → Params → Option Params
  | [], [], params => some params
  | .literal lit :: ps, seg :: ss, params =>
    if lit = seg then matchSegments ps ss params else none
  | .param name :: ps, seg :: ss, params => matchSegments ps ss (alistInsert params name seg)
  | _, _, _ => none

/-- Model of RoutePattern::matches: split the path, reject on segment count
mismatch, then run the matching loop starting from an empty params map. -/
def RoutePattern.matches (pat : RoutePattern) (path : String) : Option Params :=
  if (splitSegs path).length = pat.segments.length then
    matchSegments pat.segments (splitSegs path) []
  else none

/-- Placeholder names of a segment list, in order of occurrence. -/
def paramNamesOf (segs : List Segment) : List String :=
  segs.filterMap (fun s => match s with | .param n => some n | .literal _ => none)

/-- Model of a parsed JSON value (serde_json::Value); the f64 payload of a
number is a Lean Float and is never inspected by the storage code. -/
inductive JsonValue where
  | null
  | bool (b : Bool)
  | number (n : Float)
  | str (s : String)
  | arr (xs : List JsonValue)
  | obj (fields : List (String × JsonValue))

/-- File-system model: a map from file paths to the parsed JSON content of
the file at that path; none means no such file exists. -/
def FileSystem := String → Option JsonValue

/-- Writing a file (the temp-file-plus-rename dance of the source is atomic,
so it is one update of the path's content). -/
def fsWrite (fs : FileSystem) (path : String) (content : JsonValue) : FileSystem :=
  fun p => if p = path then some content else fs p

/-- Modulo 2^32 word arithmetic for the SHA-256 model of the sha2 crate. -/
def M32 : Nat := 4294967296

/-- Right rotation of a 32-bit word. -/
def rotr32 (x n : Nat) : Nat := ((x >>> n) ||| (x <<< (32 - n))) % M32

/-- SHA-256 big sigma 0. -/
def shaBigSigma0 (x : Nat) : Nat := rotr32 x 2 ^^^ rotr32 x 13 ^^^ rotr32 x 22

/-- SHA-256 big sigma 1. -/
def shaBigSigma1 (x : Nat) : Nat := rotr32 x 6 ^^^ rotr32 x 11 ^^^ rotr32 x 25

/-- SHA-256 small sigma 0. -/
def shaSmallSigma0 (x : Nat) : Nat := rotr32 x 7 ^^^ rotr32 x 18 ^^^ (x >>> 3)

/-- SHA-256 small sigma 1. -/
def shaSmallSigma1 (x : Nat) : Nat := rotr32 x 17 ^^^ rotr32 x 19 ^^^ (x >>> 10)

/-- SHA-256 choice function. -/
def shaCh (x y z : Nat) : Nat := (x &&& y) ^^^ ((x ^^^ 4294967295) &&& z)

/-- SHA-256 majority function. -/
def shaMaj (x y z : Nat) : Nat := (x &&& y) ^^^ (x &&& z) ^^^ (y &&& z)

/-- SHA-256 round constants (the standard table, written in decimal). -/
def shaK : List Nat :=
  [1116352408, 1899447441, 3049323471, 3921009573, 961987163, 1508970993, 2453635748,
   2870763221, 3624381080, 310598401, 607225278, 1426881987, 1925078388, 2162078206,
   2614888103, 3248222580, 3835390401, 4022224774, 264347078, 604807628, 770255983,
   1249150122, 1555081692, 1996064986, 2554220882, 2821834349, 2952996808, 3210313671,
   3336571891, 3584528711, 113926993, 338241895, 666307205, 773529912, 1294757372,
   1396182291, 1695183700, 1986661051, 2177026350, 2456956037, 2730485921, 2820302411,
   3259730800, 3345764771, 3516065817, 3600352804, 4094571909, 275423344, 430227734,
   506948616, 659060556, 883997877, 958139571, 1322822218, 1537002063, 1747873779,
   1955562222, 2024104815, 2227730452, 2361852424, 2428436474, 2756734187, 3204031479,
   3329325298]

/-- SHA-256 initial hash state (the standard values, written in decimal). -/
def shaH0 : List Nat :=
  [1779033703, 3144134277, 1013904242, 2773480762, 1359893119, 2600822924, 528734635,
   1541459225]

/-- Message schedule of one 64-byte block: sixteen big-endian words extended
to sixty-four. -/
def shaSchedule (block : List Nat) : List Nat :=
  let w16 := (List.range 16).map (fun i =>
    block.getD (4 * i) 0 * 16777216 + block.getD (4 * i + 1) 0 * 65536 +
      block.getD (4 * i + 2) 0 * 256 + block.getD (4 * i + 3) 0)
  (List.range 48).foldl (fun w _ =>
    let t := w.length
    w ++ [(shaSmallSigma1 (w.getD (t - 2) 0) + w.getD (t - 7) 0 +
      shaSmallSigma0 (w.getD (t - 15) 0) + w.getD (t - 16) 0) % M32]) w16

/-- One SHA-256 compression round over the eight-word state. -/
def shaCompress (h : List Nat) (block : List Nat) : List Nat :=
  let w := shaSchedule block
  let s := (List.range 64).foldl (fun (st : List Nat) t =>
    match st with
    | [a, b, c, d, e, f, g, hh] =>
      let t1 := (hh + shaBigSigma1 e + shaCh e f g + shaK.getD t 0 + w.getD t 0) % M32
      let t2 := (shaBigSigma0 a + shaMaj a b c) % M32
      [(t1 + t2) % M32, a, b, c, (d + t1) % M32, e, f, g]
    | other => other) h
  (h.zip s).map (fun p => (p.1 + p.2) % M32)

/-- Big-endian bytes of a 64-bit length field. -/
def be64 (n : Nat) : List Nat :=
  [(n >>> 56) % 256, (n >>> 48) % 256, (n >>> 40) % 256, (n >>> 32) % 256,
   (n >>> 24) % 256, (n >>> 16) % 256, (n >>> 8) % 256, n % 256]

/-- SHA-256 padding: a 0x80 byte, zeros to 56 mod 64, and the bit length. -/
def shaPad (msg : List Nat) : List Nat :=
  let len := msg.length
  let zeros := (64 + 56 - (len + 1) % 64) % 64
  msg ++ [0x80] ++ List.replicate zeros 0 ++ be64 (len * 8)

/-- SHA-256 digest bytes of a message, modelling the sha2 crate. -/
def sha256Bytes (msg : List Nat) : List Nat :=
  let padded := shaPad msg
  let nblocks := padded.length / 64
  let hFinal := (List.range nblocks).foldl
    (fun h i => shaCompress h ((padded.drop (64 * i)).take 64)) shaH0
  (hFinal.map (fun wd => [(wd >>> 24) % 256, (wd >>> 16) % 256, (wd >>> 8) % 256, wd % 256])).flatten

/-- UTF-8 encoding of one character, modelling str::as_bytes. -/
def utf8Bytes (c : Char) : List Nat :=
  let n := c.toNat
  if n < 128 then [n]
  else if n < 2048 then [192 + n / 64, 128 + n % 64]
  else if n < 65536 then [224 + n / 4096, 128 + (n / 64) % 64, 128 + n % 64]
  else [240 + n / 262144, 128 + (n / 4096) % 64, 128 + (n / 64) % 64, 128 + n % 64]

/-- UTF-8 bytes of a string. -/
def strBytes (s : String) : List Nat := (s.data.map utf8Bytes).flatten

/-- Lowercase hexadecimal digit. -/
def hexDigitChar (n : Nat) : Char := if n < 10 then Char.ofNat (48 + n) else Char.ofNat (87 + n)

/-- Hex rendering of the SHA-256 digest of a string, as produced by the
two-digit lowercase formatting loop in sanitize_origin. -/
def sha256Hex (s : String) : String :=
  String.mk (((sha256Bytes (strBytes s)).map
    (fun b => [hexDigitChar (b / 16), hexDigitChar (b % 16)])).flatten)

/-- Character sanitisation shared by sanitize_origin, load_persistent_storage
and the tests: alphanumeric characters, dots and hyphens are kept, everything
else becomes an underscore. -/
def sanitizeChar (c : Char) : Char :=
  if c.isAlphanum || c = '.' || c = '-' then c else '_'

/-- The sanitised origin string, before any hash suffix. -/
def sanitizedOrigin (origin : String) : String := String.mk (origin.data.map sanitizeChar)

/-- Model of StorageManager::sanitize_origin: the sanitised origin followed
by a hyphen and the 64-character SHA-256 hex digest of the raw origin. -/
def sanitize_origin (origin : String) : String :=
  sanitizedOrigin origin ++ "-" ++ sha256Hex origin

/-- Model of StorageManager::get_persistent_file_path: the storage directory
joined with the hash-suffixed sanitised origin plus a .json extension. -/
def get_persistent_file_path (sm : StorageManager) : String :=
  sm.storage_dir ++ "/" ++ sanitize_origin sm.origin ++ ".json"

/-- Decoding of one loaded JSON value inside load_persistent_storage: the
source match converts strings and booleans and skips every other shape. -/
def decodeStateValue : JsonValue → Option StateValue
  | .str s => some (.string s)
  | .bool b => some (.bool b)
  | _ => none

/-- Model of StorageManager::load_persistent_storage. The file name it reads
is the sanitised origin with no hash suffix (the source re-sanitises inline
instead of calling sanitize_origin); a missing file yields an empty map, a
file whose top level is not a JSON object is a deserialisation error. -/
def load_persistent_storage (fs : FileSystem) (storage_dir origin : String) :
    Except String StateMap :=
  match fs (storage_dir ++ "/" ++ sanitizedOrigin origin ++ ".json") with
  | none => .ok []
  | some (.obj fields) =>
    .ok (fields.foldl (fun m kv =>
      match decodeStateValue kv.2 with
      | some v => alistInsert m kv.1 v
      | none => m) [])
  | some _ => .error "persistent storage file does not parse as a string map"

/-- Encoding of one StateValue as written by save_persistent_storage; the
source match has arms for exactly Empty, String and Boolean, so other
variants have no encoding. -/
def encodeStateValue : StateValue → Option JsonValue
  | .empty => some .null
  | .string s => some (.str s)
  | .bool b => some (.bool b)
  | _ => none

/-- Encoding of a whole persistent map for save_persistent_storage. -/
def encodeStateMap : StateMap → Option (List (String × JsonValue))
  | [] => some []
  | (k, v) :: rest =>
    match encodeStateValue v, encodeStateMap rest with
    | some j, some js => some ((k, j) :: js)
    | _, _ => none

/-- Model of StorageManager::save_persistent_storage: encode the persistent
map as a JSON object and atomically write it to get_persistent_file_path. -/
def save_persistent_storage (sm : StorageManager) (fs : FileSystem) :
    Except String FileSystem :=
  match encodeStateMap sm.persistent_storage with
  | some fields => .ok (fsWrite fs (get_persistent_file_path sm) (.obj fields))
  | none => .error "persistent value has no JSON encoding"

/-- Model of StorageManager::new_with_dir: load the persistent file for the
origin and start with empty session and local scopes and no current route. -/
def StorageManager.new_with_dir (fs : FileSystem) (origin storage_dir : String) :
    Except String StorageManager :=
  match load_persistent_storage fs storage_dir origin with
  | .ok persistent => .ok ⟨persistent, [], [], none, storage_dir, origin⟩
  | .error e => .error e

/-- Model of StorageManager::store: insert into the map of the scope; for the
persistent scope the whole persistent map is saved to disk afterwards. -/
def StorageManager.store (sm : StorageManager) (fs : FileSystem) (scope : StorageScope)
    (key : String) (value : StateValue) : Except String (StorageManager × FileSystem) :=
  match scope with
  | .persistent =>
    let sm2 : StorageManager :=
      ⟨alistInsert sm.persistent_storage key value, sm.session_storage, sm.local_storage,
        sm.current_route, sm.storage_dir, sm.origin⟩
    match save_persistent_storage sm2 fs with
    | .ok fs2 => .ok (sm2, fs2)
    | .error e => .error e
  | .session =>
    .ok (⟨sm.persistent_storage, alistInsert sm.session_storage key value, sm.local_storage,
      sm.current_route, sm.storage_dir, sm.origin⟩, fs)
  | .local =>
    .ok (⟨sm.persistent_storage, sm.session_storage, alistInsert sm.local_storage key value,
      sm.current_route, sm.storage_dir, sm.origin⟩, fs)

/-- Model of StorageManager::navigate_to: on a route change the local storage
is cleared and the current route updated; otherwise nothing happens. -/
def StorageManager.navigate_to (sm : StorageManager) (new_route : String) : StorageManager :=
  if sm.current_route ≠ some new_route then
    ⟨sm.persistent_storage, sm.session_storage, [], some new_route, sm.storage_dir, sm.origin⟩
  else sm

/-- Model of StorageManager::clear_local_storage. -/
def StorageManager.clear_local_storage (sm : StorageManager) : StorageManager :=
  ⟨sm.persistent_storage, sm.session_storage, [], sm.current_route, sm.storage_dir, sm.origin⟩

/-- Model of StorageManager::clear_session_storage. -/
def StorageManager.clear_session_storage (sm : StorageManager) : StorageManager :=
  ⟨sm.persistent_storage, [], sm.local_storage, sm.current_route, sm.storage_dir, sm.origin⟩

/-- Model of pinhole-protocol/src/network.rs NetworkError; the io error
payload is modelled by its message. -/
inductive NetworkError where
  | messageTooLarge (size max : Nat)
  | ioError (msg : String)
  | serializationError (msg : String)
deriving DecidableEq

/-- Maximum message size of 10 MiB from network.rs. -/
def MAX_MESSAGE_SIZE : Nat := 10 * 1024 * 1024

/-- Model of validate_message_size: lengths above the maximum are rejected
with MessageTooLarge carrying the offending size and the maximum. -/
def validate_message_size (length : Nat) : Except NetworkError Unit :=
  if length > MAX_MESSAGE_SIZE then .error (.messageTooLarge length MAX_MESSAGE_SIZE)
  else .ok ()

/-- Little-endian u32 read of the four-byte prefix buffer; missing bytes stay
zero exactly like the zero-initialised Rust read buffer. -/
def readLE32 (bytes : List Nat) : Nat :=
  bytes.getD 0 0 + bytes.getD 1 0 * 256 + bytes.getD 2 0 * 65536 + bytes.getD 3 0 * 16777216

/-- Little-endian four-byte encoding of a u32 value, as u32::to_le_bytes. -/
def leBytes4 (n : Nat) : List Nat :=
  [n % 256, (n / 256) % 256, (n / 65536) % 256, (n / 16777216) % 256]

/-- Model of receive_client_message over a byte stream: read the four-byte
length prefix; a zero length returns success with no message; otherwise the
length is validated before any payload byte is read, and on success the
payload bytes are taken from the stream (their CBOR decoding is handled by
serde and is outside this model). The second component is the part of the
stream left unread; receive_server_message is byte-for-byte identical. -/
def receive_client_message (stream : List Nat) :
    Except NetworkError (Option (List Nat)) × List Nat :=
  let len := readLE32 (stream.take 4)
  let rest := stream.drop 4
  if len > 0 then
    match validate_message_size len with
    | .error e => (.error e, rest)
    | .ok _ => (.ok (some (rest.take len)), rest.drop len)
  else (.ok none, rest)

/-- The round trip of claim C1: create a manager over the given file system,
store a persistent value, then create a fresh manager for the same origin and
directory over the resulting file system and read the key back. -/
def persistent_roundtrip (fs : FileSystem) (origin storage_dir key : String)
    (value : StateValue) : Except String (Option StateValue) :=
  match StorageManager.new_with_dir fs origin storage_dir with
  | .error e => .error e
  | .ok sm0 =>
    match sm0.store fs .persistent key value with
    | .error e => .error e
    | .ok (_, fs2) =>
      match StorageManager.new_with_dir fs2 origin storage_dir with
      | .error e => .error e
      | .ok sm2 => .ok (sm2.get .persistent key)

/-- Model of pinhole-protocol CapabilitySet: a HashSet of capability URIs. -/
abbrev CapabilitySet := Finset String

/-- Model of CapabilitySet::intersect. -/
def CapabilitySet.intersect (s other : CapabilitySet) : CapabilitySet := s ∩ other

/-- Model of supported_capabilities: the set holding the core v1 capability. -/
def supported_capabilities : CapabilitySet := insert "pinhole:core:v1" ∅

/-- Model of pinhole-protocol/src/action.rs Action. -/
structure Action where
  name : String
  args : AList String
  keys : List String

/-- Model of the Action type of document.rs used inside document nodes. -/
structure DocAction where
  name : String
  args : AList String

/-- Model of document.rs TextProps. -/
structure TextProps where
  text : String

/-- Model of document.rs ButtonProps. -/
structure ButtonProps where
  label : String
  on_click : DocAction

/-- Model of document.rs CheckboxProps. -/
structure CheckboxProps where
  id : String
  label : String
  checked : Bool
  on_change : DocAction

/-- Model of document.rs InputProps. -/
structure InputProps where
  id : String
  label : String
  password : Bool

/-- Model of document.rs Node. -/
inductive Node where
  | empty
  | container (children : List Node)
  | text (props : TextProps)
  | button (props : ButtonProps)
  | checkbox (props : CheckboxProps)
  | input (props : InputProps)

/-- Model of document.rs Document: a document wraps its root node. -/
structure Document where
  root : Node

/-- Model of messages.rs ErrorCode. -/
inductive ErrorCode where
  | badRequest
  | notFound
  | upgradeRequired
  | internalServerError
deriving DecidableEq

/-- Model of ErrorCode::as_u16. -/
def ErrorCode.as_u16 : ErrorCode → Nat
  | .badRequest => 400
  | .notFound => 404
  | .upgradeRequired => 426
  | .internalServerError => 500

/-- Model of messages.rs ClientToServerMessage. -/
inductive ClientToServerMessage where
  | clientHello (capabilities : CapabilitySet)
  | load (path : String) (storage : StateMap)
  | action (path : String) (action : Action) (storage : StateMap)

/-- Model of messages.rs ServerToClientMessage. -/
inductive ServerToClientMessage where
  | serverHello (capabilities : CapabilitySet)
  | render (document : Document)
  | redirectTo (path : String)
  | store (scope : StorageScope) (key : String) (value : StateValue)
  | error (code : ErrorCode) (message : String)

/-- Model of the ClientHello arm of handle_request in pinhole-framework
lib.rs: intersect the server-supported set with the client-offered set, send
ServerHello carrying it, and return it for installation as the connection's
capability set. -/
def handle_client_hello (client_caps : CapabilitySet) :
    ServerToClientMessage × Option CapabilitySet :=
  (.serverHello (supported_capabilities.intersect client_caps),
    some (supported_capabilities.intersect client_caps))

/-- Model of the capability update in the loop of handle_connection: a
renegotiated set returned by handle_request replaces the connection's set. -/
def updateCapabilities (current : CapabilitySet) (renegotiated : Option CapabilitySet) :
    CapabilitySet :=
  match renegotiated with
  | some caps => caps
  | none => current

/-- Model of pinhole-client NetworkSessionCommand. -/
inductive NetworkSessionCommand where
  | action (a : Action) (storage : StateMap)
  | load (path : String)

/-- Model of pinhole-client NetworkSessionEvent. -/
inductive NetworkSessionEvent where
  | documentUpdated (document : Document)
  | serverError (code : Nat) (message : String)

/-- State carried across iterations of session_loop in client network.rs:
the current path, the storage manager and the persistent-file store. -/
structure SessionState where
  current_path : Option String
  storage_manager : StorageManager
  fs : FileSystem

/-- Whether the session keeps running after a step or ends with the fatal
error that session_loop returns. -/
inductive SessionOutcome where
  | continueSession
  | fatalError (message : String)

/-- Result of one step of session_loop: the new session state, the messages
sent to the server during the step, the events broadcast to subscribers, and
whether the session continues. -/
structure SessionStep where
  state : SessionState
  sent : List ClientToServerMessage
  events : List NetworkSessionEvent
  outcome : SessionOutcome

/-- Model of the command arm of the select loop in session_loop: an Action
command is forwarded only when a current path is set and is otherwise
dropped with a warning log; a Load command records the path, navigates the
storage manager, clears local storage and sends Load with the merged
storage. -/
def handleCommand (st : SessionState) (cmd : NetworkSessionCommand) : SessionStep :=
  match cmd with
  | .action a storage =>
    match st.current_path with
    | some path => ⟨st, [.action path a storage], [], .continueSession⟩
    | none => ⟨st, [], [], .continueSession⟩
  | .load path =>
    let sm := (st.storage_manager.navigate_to path).clear_local_storage
    ⟨⟨some path, sm, st.fs⟩, [.load path sm.get_all_storage], [], .continueSession⟩

/-- Model of the server-message arm of the select loop in session_loop.
ServerHello is only logged; Render broadcasts the document; RedirectTo
behaves like a Load command for the new path; Store updates the storage
manager (a failed store only logs); an Error with code UpgradeRequired makes
session_loop return a fatal protocol error, and any other error code is
broadcast as a ServerError event. Event broadcasts are modelled as delivered
(subscribers present). -/
def handleServerMessage (st : SessionState) (msg : ServerToClientMessage) : SessionStep :=
  match msg with
  | .serverHello _ => ⟨st, [], [], .continueSession⟩
  | .render document => ⟨st, [], [.documentUpdated document], .continueSession⟩
  | .redirectTo path =>
    let sm := (st.storage_manager.navigate_to path).clear_local_storage
    ⟨⟨some path, sm, st.fs⟩, [.load path sm.get_all_storage], [], .continueSession⟩
  | .store scope key value =>
    match st.storage_manager.store st.fs scope key value with
    | .ok (sm2, fs2) => ⟨⟨st.current_path, sm2, fs2⟩, [], [], .continueSession⟩
    | .error _ => ⟨st, [], [], .continueSession⟩
  | .error code message =>
    if code = .upgradeRequired then ⟨st, [], [], .fatalError message⟩
    else ⟨st, [], [.serverError code.as_u16 message], .continueSession⟩

/-- Model of the connection preamble of session_loop: right after a
connection is established the client sends ClientHello with its supported
capabilities and, when current_path is set, navigates, clears local storage
and sends the automatic Load, all before the first receive on the
connection. The second component lists the messages sent during the
preamble, in order. -/
def connectionStart (st : SessionState) : SessionState × List ClientToServerMessage :=
  match st.current_path with
  | some path =>
    let sm := (st.storage_manager.navigate_to path).clear_local_storage
    (⟨st.current_path, sm, st.fs⟩,
      [.clientHello supported_capabilities, .load path sm.get_all_storage])
  | none => (st, [.clientHello supported_capabilities])

end Pinhole

namespace Pinhole

theorem alistLookup_insert_self {α : Type} (m : AList α) (k : String) (v : α) :
    alistLookup (alistInsert m k v) k = some v := by
  simp [alistInsert, alistLookup]

theorem alistLookup_remove_ne {α : Type} (m : AList α) (k k2 : String) (h : k2 ≠ k) :
    alistLookup (alistRemove m k) k2 = alistLookup m k2 := by
  induction m with
  | nil => rfl
  | cons hd tl ih =>
    rw [show alistRemove (hd :: tl) k =
        if hd.1 = k then alistRemove tl k else (hd.1, hd.2) :: alistRemove tl k from rfl]
    by_cases hk : hd.1 = k
    · rw [if_pos hk, ih, alistLookup, if_neg (fun h2 => h (h2.symm.trans hk))]
    · rw [if_neg hk, alistLookup, alistLookup]
      by_cases h2 : hd.1 = k2
      · rw [if_pos h2, if_pos h2]
      · rw [if_neg h2, if_neg h2, ih]

theorem alistLookup_insert_ne {α : Type} (m : AList α) (k k2 : String) (v : α) (h : k2 ≠ k) :
    alistLookup (alistInsert m k v) k2 = alistLookup m k2 := by
  unfold alistInsert
  rw [alistLookup]
  rw [if_neg (fun h2 => h h2.symm)]
  exact alistLookup_remove_ne m k k2 h

theorem alistLookup_eq_none_of_not_mem {α : Type} (m : AList α) (k : String)
    (h : k ∉ alistKeys m) : alistLookup m k = none := by
  induction m with
  | nil => rfl
  | cons hd tl ih =>
    rw [alistLookup]
    rw [if_neg (fun hc => h (by simp [alistKeys, hc]))]
    exact ih (fun hm => h (by simp [alistKeys] at hm ⊢; exact Or.inr hm))

theorem alistLookup_extend {α : Type} (m2 : AList α) (base : AList α) (k : String)
    (h : (alistKeys m2).Nodup) :
    alistLookup (alistExtend base m2) k =
      match alistLookup m2 k with
      | some v => some v
      | none => alistLookup base k := by
  induction m2 generalizing base with
  | nil => rfl
  | cons hd tl ih =>
    have hnd : (alistKeys tl).Nodup := (List.nodup_cons.mp h).2
    have hni : hd.1 ∉ alistKeys tl := (List.nodup_cons.mp h).1
    rw [show alistExtend base (hd :: tl) = alistExtend (alistInsert base hd.1 hd.2) tl from rfl]
    rw [ih _ hnd]
    by_cases hk : hd.1 = k
    · subst hk
      have htl : alistLookup tl hd.1 = none := alistLookup_eq_none_of_not_mem tl hd.1 hni
      rw [htl, alistLookup_insert_self]
      rw [alistLookup, if_pos rfl]
    · rw [alistLookup_insert_ne _ _ _ _ (fun h2 => hk h2.symm)]
      rw [alistLookup, if_neg hk]

/-- C2: get_all_storage merges the three scopes with local winning over
session winning over persistent: the merged map binds k to local[k] if k is
in local storage, else session[k] if in session storage, else persistent[k]
if in persistent storage, and otherwise k is absent. -/
theorem get_all_storage_scope_precedence (p s l : StateMap) (cr : Option String)
    (dir origin : String) (k : String)
    (hp : (alistKeys p).Nodup) (hs : (alistKeys s).Nodup) (hl : (alistKeys l).Nodup) :
    alistLookup (StorageManager.get_all_storage ⟨p, s, l, cr, dir, origin⟩) k =
      match alistLookup l k with
      | some v => some v
      | none =>
        match alistLookup s k with
        | some v => some v
        | none => alistLookup p k := by
  unfold StorageManager.get_all_storage
  rw [alistLookup_extend _ _ _ hl]
  rw [alistLookup_extend _ _ _ hs]
  rw [alistLookup_extend _ _ _ hp]
  cases alistLookup l k <;> cases alistLookup s k <;> cases alistLookup p k <;> rfl

theorem matchSegments_literal_eq (segs : List Segment) :
    ∀ (ss : List String) (acc params : Params),
      matchSegments segs ss acc = some params →
      ∀ lit seg, (Segment.literal lit, seg) ∈ segs.zip ss → seg = lit := by
  induction segs with
  | nil =>
    intro ss acc params _ lit seg hmem
    rw [show (List.zip ([] : List Segment) ss) = [] from rfl] at hmem
    cases hmem
  | cons s ps ih =>
    intro ss acc params hm lit seg hmem
    cases ss with
    | nil =>
      rw [show matchSegments (s :: ps) [] acc = none from by cases s <;> rfl] at hm
      cases hm
    | cons seg2 ss2 =>
      cases s with
      | literal lit2 =>
        rw [show matchSegments (.literal lit2 :: ps) (seg2 :: ss2) acc =
            if lit2 = seg2 then matchSegments ps ss2 acc else none from rfl] at hm
        by_cases he : lit2 = seg2
        · rw [if_pos he] at hm
          rcases List.mem_cons.mp hmem with h1 | h2
          · injection h1 with h1a h1b
            injection h1a with h1c
            subst h1c
            subst h1b
            exact he.symm
          · exact ih ss2 acc params hm lit seg h2
        · rw [if_neg he] at hm
          cases hm
      | param m =>
        rw [show matchSegments (.param m :: ps) (seg2 :: ss2) acc =
            matchSegments ps ss2 (alistInsert acc m seg2) from rfl] at hm
        rcases List.mem_cons.mp hmem with h1 | h2
        · injection h1 with h1a h1b
          exact Segment.noConfusion h1a
        · exact ih ss2 _ params hm lit seg h2

theorem matchSegments_lookup_of_not_mem (segs : List Segment) :
    ∀ (ss : List String) (acc params : Params),
      matchSegments segs ss acc = some params →
      ∀ n, n ∉ paramNamesOf segs → alistLookup params n = alistLookup acc n := by
  induction segs with
  | nil =>
    intro ss acc params hm n _
    cases ss with
    | nil =>
      rw [show matchSegments [] [] acc = some acc from rfl] at hm
      injection hm with h
      subst h
      rfl
    | cons a as =>
      rw [show matchSegments [] (a :: as) acc = none from rfl] at hm
      cases hm
  | cons s ps ih =>
    intro ss acc params hm n hn
    cases ss with
    | nil =>
      rw [show matchSegments (s :: ps) [] acc = none from by cases s <;> rfl] at hm
      cases hm
    | cons seg2 ss2 =>
      cases s with
      | literal lit2 =>
        rw [show matchSegments (.literal lit2 :: ps) (seg2 :: ss2) acc =
            if lit2 = seg2 then matchSegments ps ss2 acc else none from rfl] at hm
        by_cases he : lit2 = seg2
        · rw [if_pos he] at hm
          exact ih ss2 acc params hm n (by simpa [paramNamesOf] using hn)
        · rw [if_neg he] at hm
          cases hm
      | param m =>
        rw [show matchSegments (.param m :: ps) (seg2 :: ss2) acc =
            matchSegments ps ss2 (alistInsert acc m seg2) from rfl] at hm
        have hn2 : ¬ (n = m ∨ n ∈ paramNamesOf ps) := by
          simpa [paramNamesOf, List.mem_cons] using hn
        rw [ih ss2 _ params hm n (fun hc => hn2 (Or.inr hc))]
        exact alistLookup_insert_ne acc m n seg2 (fun hc => hn2 (Or.inl hc))

theorem matchSegments_lookup_isSome (segs : List Segment) :
    ∀ (ss : List String) (acc params : Params),
      matchSegments segs ss acc = some params →
      ∀ n, (alistLookup params n).isSome = true ↔
        (n ∈ paramNamesOf segs ∨ (alistLookup acc n).isSome = true) := by
  induction segs with
  | nil =>
    intro ss acc params hm n
    cases ss with
    | nil =>
      rw [show matchSegments [] [] acc = some acc from rfl] at hm
      injection hm with h
      subst h
      simp [paramNamesOf]
    | cons a as =>
      rw [show matchSegments [] (a :: as) acc = none from rfl] at hm
      cases hm
  | cons s ps ih =>
    intro ss acc params hm n
    cases ss with
    | nil =>
      rw [show matchSegments (s :: ps) [] acc = none from by cases s <;> rfl] at hm
      cases hm
    | cons seg2 ss2 =>
      cases s with
      | literal lit2 =>
        rw [show matchSegments (.literal lit2 :: ps) (seg2 :: ss2) acc =
            if lit2 = seg2 then matchSegments ps ss2 acc else none from rfl] at hm
        by_cases he : lit2 = seg2
        · rw [if_pos he] at hm
          rw [ih ss2 acc params hm n]
          simp [paramNamesOf]
        · rw [if_neg he] at hm
          cases hm
      | param m =>
        rw [show matchSegments (.param m :: ps) (seg2 :: ss2) acc =
            matchSegments ps ss2 (alistInsert acc m seg2) from rfl] at hm
        rw [ih ss2 _ params hm n]
        by_cases hnm : n = m
        · subst hnm
          rw [alistLookup_insert_self]
          simp [paramNamesOf]
        · rw [alistLookup_insert_ne acc m n seg2 hnm]
          simp [paramNamesOf, List.mem_cons, hnm]

theorem mem_paramNames_of_zip (segs : List Segment) :
    ∀ (ss : List String) (n seg : String),
      (Segment.param n, seg) ∈ segs.zip ss → n ∈ paramNamesOf segs := by
  induction segs with
  | nil =>
    intro ss n seg hmem
    rw [show (List.zip ([] : List Segment) ss) = [] from rfl] at hmem
    cases hmem
  | cons s ps ih =>
    intro ss n seg hmem
    cases ss with
    | nil =>
      rw [show (s :: ps).zip ([] : List String) = [] from rfl] at hmem
      cases hmem
    | cons seg2 ss2 =>
      rcases List.mem_cons.mp hmem with h1 | h2
      · injection h1 with h1a h1b
        subst h1a
        simp [paramNamesOf]
      · have := ih ss2 n seg h2
        cases s with
        | literal lit2 => simpa [paramNamesOf] using this
        | param m =>
          simp [paramNamesOf, List.mem_cons]
          exact Or.inr (by simpa [paramNamesOf] using this)

theorem matchSegments_param_binding (segs : List Segment) :
    ∀ (ss : List String) (acc params : Params),
      matchSegments segs ss acc = some params →
      (paramNamesOf segs).Nodup →
      ∀ n seg, (Segment.param n, seg) ∈ segs.zip ss → alistLookup params n = some seg := by
  induction segs with
  | nil =>
    intro ss acc params _ _ n seg hmem
    rw [show (List.zip ([] : List Segment) ss) = [] from rfl] at hmem
    cases hmem
  | cons s ps ih =>
    intro ss acc params hm hnd n seg hmem
    cases ss with
    | nil =>
      rw [show matchSegments (s :: ps) [] acc = none from by cases s <;> rfl] at hm
      cases hm
    | cons seg2 ss2 =>
      cases s with
      | literal lit2 =>
        rw [show matchSegments (.literal lit2 :: ps) (seg2 :: ss2) acc =
            if lit2 = seg2 then matchSegments ps ss2 acc else none from rfl] at hm
        by_cases he : lit2 = seg2
        · rw [if_pos he] at hm
          rcases List.mem_cons.mp hmem with h1 | h2
          · injection h1 with h1a h1b
            exact Segment.noConfusion h1a
          · exact ih ss2 acc params hm (by simpa [paramNamesOf] using hnd) n seg h2
        · rw [if_neg he] at hm
          cases hm
      | param m =>
        rw [show matchSegments (.param m :: ps) (seg2 :: ss2) acc =
            matchSegments ps ss2 (alistInsert acc m seg2) from rfl] at hm
        have h0 : (m :: paramNamesOf ps).Nodup := by simpa [paramNamesOf] using hnd
        rcases List.mem_cons.mp hmem with h1 | h2
        · injection h1 with h1a h1b
          injection h1a with h1c
          subst h1c
          subst h1b
          rw [matchSegments_lookup_of_not_mem ps ss2 _ params hm n (List.nodup_cons.mp h0).1]
          exact alistLookup_insert_self acc n seg
        · exact ih ss2 _ params hm (List.nodup_cons.mp h0).2 n seg h2

/-- C5: if matches(path) = some(params) then the bound names are exactly the
placeholder names of the pattern, every literal pattern segment equals the
corresponding path segment, and (when the placeholder names are distinct, so
that the corresponding segment is well defined) each placeholder is bound to
the corresponding path segment; if segment counts differ the result is none. -/
theorem route_matches_spec (pattern path : String) :
    (∀ params, (RoutePattern.new pattern).matches path = some params →
      ((∀ n, (alistLookup params n).isSome = true ↔
          n ∈ paramNamesOf (RoutePattern.new pattern).segments) ∧
       (∀ lit seg,
          (Segment.literal lit, seg) ∈ (RoutePattern.new pattern).segments.zip (splitSegs path) →
          seg = lit) ∧
       ((paramNamesOf (RoutePattern.new pattern).segments).Nodup →
        ∀ n seg,
          (Segment.param n, seg) ∈ (RoutePattern.new pattern).segments.zip (splitSegs path) →
          alistLookup params n = some seg))) ∧
    ((splitSegs path).length ≠ (RoutePattern.new pattern).segments.length →
      (RoutePattern.new pattern).matches path = none) := by
  constructor
  · intro params hm
    have hm2 : matchSegments (RoutePattern.new pattern).segments (splitSegs path) []
        = some params := by
      unfold RoutePattern.matches at hm
      by_cases hlen : (splitSegs path).length = (RoutePattern.new pattern).segments.length
      · rwa [if_pos hlen] at hm
      · rw [if_neg hlen] at hm
        cases hm
    refine ⟨?_, ?_, ?_⟩
    · intro n
      have h := matchSegments_lookup_isSome (RoutePattern.new pattern).segments
        (splitSegs path) [] params hm2 n
      simpa [alistLookup] using h
    · exact fun lit seg h => matchSegments_literal_eq _ _ _ _ hm2 lit seg h
    · exact fun hnd n seg h => matchSegments_param_binding _ _ _ _ hm2 hnd n seg h
  · intro hlen
    unfold RoutePattern.matches
    rw [if_neg hlen]

/-- Witness for C5: the pattern /users/:id matched against /users/123 binds
the placeholder id to the segment 123. -/
theorem route_matches_spec_witness :
    alistLookup [("id", "123")] "id" = some "123" :=
  ((route_matches_spec "/users/:id" "/users/123").1 [("id", "123")] (by decide)).2.2
    (by decide) "id" "123" (by decide)

theorem splitCharsAux_append_sep (sep : Char) :
    ∀ (l acc : List Char),
      splitCharsAux sep (l ++ [sep]) acc = splitCharsAux sep l acc ++ [[]] := by
  intro l
  induction l with
  | nil => intro acc; simp [splitCharsAux]
  | cons c cs ih =>
    intro acc
    by_cases h : c = sep <;> simp [splitCharsAux, h, ih]

theorem splitSegs_append_slash (path : String) : splitSegs (path ++ "/") = splitSegs path := by
  unfold splitSegs
  rw [show (path ++ "/").data = path.data ++ ['/'] from String.data_append path "/"]
  rw [splitCharsAux_append_sep]
  rw [List.filter_append]
  simp

/-- C6 counterexample: the pattern /users/:id does match /users/123/ even
though the path carries a trailing slash, binding id to 123. -/
theorem trailing_slash_matches_counterexample :
    (RoutePattern.new "/users/:id").matches "/users/123/" = some [("id", "123")] := by
  decide

/-- C6 amended: trailing slashes are ignored rather than causing a mismatch,
because splitting filters out the empty segment they produce: a path with a
trailing slash appended matches exactly as the path without it. -/
theorem matches_trailing_slash_ignored (pattern path : String) :
    (RoutePattern.new pattern).matches (path ++ "/") = (RoutePattern.new pattern).matches path := by
  unfold RoutePattern.matches
  rw [splitSegs_append_slash]

/-- Witness for C2 at concrete storage maps with a shared key. -/
theorem get_all_storage_scope_precedence_witness :
    alistLookup
      (StorageManager.get_all_storage
        ⟨[("k", .string "p"), ("q", .string "pq")], [("k", .string "s")],
          [("k", .string "l")], none, "/data", "origin"⟩) "k" = some (.string "l") :=
  (get_all_storage_scope_precedence [("k", .string "p"), ("q", .string "pq")]
    [("k", .string "s")] [("k", .string "l")] none "/data" "origin" "k"
    (by decide) (by decide) (by decide)).trans rfl

theorem load_path_ne_save_path (dir origin : String) :
    dir ++ "/" ++ sanitizedOrigin origin ++ ".json" ≠
      dir ++ "/" ++ sanitize_origin origin ++ ".json" := by
  intro h
  have hlen := congrArg (fun t => t.data.length) h
  simp only [sanitize_origin, String.data_append, List.length_append, List.length_cons,
    List.length_nil] at hlen
  omega

/-- C1 fails on the code: after store(Persistent, k, String(s)) succeeds on a
fresh origin directory, a fresh StorageManager for the same origin and
directory reads a different file name (without the hash suffix written by
save_persistent_storage), finds nothing, and get(Persistent, k) returns none
instead of some (String s). -/
theorem persistent_store_reload_lost (origin dir k s : String) :
    persistent_roundtrip (fun _ => none) origin dir k (.string s) = .ok none := by
  have hne := load_path_ne_save_path dir origin
  simp only [persistent_roundtrip, StorageManager.new_with_dir, load_persistent_storage,
    StorageManager.store, save_persistent_storage, encodeStateMap, encodeStateValue,
    get_persistent_file_path, fsWrite, StorageManager.get, alistInsert, alistRemove,
    alistLookup]
  rw [if_neg hne]
  rfl

/-- C4 fails on the code: loading a persistent file that maps k to JSON null
silently drops k instead of binding it to Empty. With a file holding null,
string, boolean, number, array and object values, only the string and boolean
keys survive the load. -/
theorem load_null_value_dropped :
    load_persistent_storage
      (fsWrite (fun _ => none) "/data/o.json"
        (.obj [("k", .null), ("a", .str "x"), ("b", .bool true), ("c", .number 2.5),
          ("d", .arr []), ("e", .obj [])]))
      "/data" "o" = .ok [("b", .bool true), ("a", .string "x")] := rfl

/-- C3: a frame whose u32 length prefix n exceeds 10 MiB is rejected with
MessageTooLarge carrying n and the 10 MiB maximum while only the four prefix
bytes are consumed (the payload is left unread), and a zero length prefix
returns success with no message. -/
theorem receive_message_size_enforcement (n : Nat) (rest : List Nat)
    (hn : n < 4294967296) :
    (n > MAX_MESSAGE_SIZE →
      receive_client_message (leBytes4 n ++ rest) =
        (.error (.messageTooLarge n MAX_MESSAGE_SIZE), rest)) ∧
    receive_client_message (leBytes4 0 ++ rest) = (.ok none, rest) := by
  constructor
  · intro hgt
    have hmax : MAX_MESSAGE_SIZE = 10485760 := rfl
    have hval : readLE32 ((leBytes4 n ++ rest).take 4) = n := by
      show n % 256 + n / 256 % 256 * 256 + n / 65536 % 256 * 65536 +
        n / 16777216 % 256 * 16777216 = n
      omega
    simp only [receive_client_message, hval]
    rw [if_pos (show n > 0 by omega)]
    unfold validate_message_size
    rw [if_pos hgt]
    rfl
  · simp [receive_client_message, readLE32, leBytes4]

/-- Witness for C3 at the smallest oversized length and a two-byte tail. -/
theorem receive_message_size_enforcement_witness :
    receive_client_message (leBytes4 10485761 ++ [7, 7]) =
      (.error (.messageTooLarge 10485761 MAX_MESSAGE_SIZE), [7, 7]) :=
  (receive_message_size_enforcement 10485761 [7, 7] (by decide)).1 (by decide)

/-- C7 counterexample: on a (re)connection with current_path = some "/a" the
automatic Load for "/a" is among the messages sent during the connection
preamble, before any server message (in particular any ServerHello) has been
received on the connection. -/
theorem auto_load_before_serverhello_counterexample :
    (connectionStart ⟨some "/a", ⟨[], [], [], none, "/data", "o"⟩, fun _ => none⟩).2 =
      [.clientHello supported_capabilities, .load "/a" []] := rfl

/-- C7 amended: on every (re)connection the client sends ClientHello first
and, when current_path is some p, immediately follows it with the automatic
Load for p carrying the merged storage computed after navigating and clearing
local storage, without waiting for ServerHello; a ServerHello received later
only completes logging: it causes no state change, no sends and no events. -/
theorem connection_start_sends_spec (st : SessionState) (caps : CapabilitySet) :
    ((connectionStart st).2 =
      match st.current_path with
      | some p =>
        [.clientHello supported_capabilities,
          .load p ((st.storage_manager.navigate_to p).clear_local_storage.get_all_storage)]
      | none => [.clientHello supported_capabilities]) ∧
    handleServerMessage st (.serverHello caps) = ⟨st, [], [], .continueSession⟩ := by
  constructor
  · cases hcp : st.current_path <;> simp [connectionStart, hcp]
  · rfl

/-- C8: an inbound Error frame with code UpgradeRequired makes session_loop
return a fatal protocol error with no events and no sends, ending the task,
while any other code broadcasts a ServerError event carrying the numeric code
and the message and continues on the same connection with unchanged state. -/
theorem error_message_handling (st : SessionState) (code : ErrorCode) (message : String) :
    (code = .upgradeRequired →
      handleServerMessage st (.error code message) = ⟨st, [], [], .fatalError message⟩) ∧
    (code ≠ .upgradeRequired →
      handleServerMessage st (.error code message) =
        ⟨st, [], [.serverError code.as_u16 message], .continueSession⟩) := by
  constructor
  · intro h
    subst h
    rfl
  · intro h
    simp [handleServerMessage, h]

/-- Witness for C8 with the non-fatal NotFound code. -/
theorem error_message_handling_witness :
    handleServerMessage ⟨none, ⟨[], [], [], none, "/d", "o"⟩, fun _ => none⟩
        (.error .notFound "missing") =
      ⟨⟨none, ⟨[], [], [], none, "/d", "o"⟩, fun _ => none⟩, [],
        [.serverError 404 "missing"], .continueSession⟩ :=
  (error_message_handling ⟨none, ⟨[], [], [], none, "/d", "o"⟩, fun _ => none⟩
    .notFound "missing").2 (by decide)

/-- C9: the ClientHello handler sends back ServerHello carrying exactly the
intersection of the server-supported capabilities with the offered set and
returns the same set, which the connection loop installs as the connection
capability set; hence every negotiated capability is both server-supported
and client-offered. -/
theorem capability_negotiation_intersection (offered current : CapabilitySet) :
    (handle_client_hello offered).1 =
        .serverHello (supported_capabilities.intersect offered) ∧
    updateCapabilities current (handle_client_hello offered).2 =
        supported_capabilities.intersect offered ∧
    (∀ c, c ∈ supported_capabilities.intersect offered →
      c ∈ supported_capabilities ∧ c ∈ offered) := by
  refine ⟨rfl, rfl, ?_⟩
  intro c hc
  exact Finset.mem_inter.mp hc

/-- Witness for C9: offering the core capability and an unsupported one
negotiates a set whose member is both supported and offered. -/
theorem capability_negotiation_intersection_witness :
    ("pinhole:core:v1" : String) ∈ supported_capabilities ∧
      ("pinhole:core:v1" : String) ∈
        (insert "pinhole:core:v1" (insert "pinhole:x" ∅) : CapabilitySet) :=
  (capability_negotiation_intersection (insert "pinhole:core:v1" (insert "pinhole:x" ∅))
    ∅).2.2 "pinhole:core:v1" (by decide)

/-- C10: an Action command dequeued while current_path is none is silently
dropped: nothing is sent to the server, no event is broadcast, no error is
raised, and the session state, its storage manager included, is unchanged. -/
theorem action_without_path_ignored (st : SessionState) (a : Action) (storage : StateMap)
    (h : st.current_path = none) :
    handleCommand st (.action a storage) = ⟨st, [], [], .continueSession⟩ := by
  simp [handleCommand, h]

/-- Witness for C10 at a concrete fresh session state. -/
theorem action_without_path_ignored_witness :
    handleCommand ⟨none, ⟨[], [], [], none, "/d", "o"⟩, fun _ => none⟩
        (.action ⟨"increment", [], []⟩ []) =
      ⟨⟨none, ⟨[], [], [], none, "/d", "o"⟩, fun _ => none⟩, [], [], .continueSession⟩ :=
  action_without_path_ignored ⟨none, ⟨[], [], [], none, "/d", "o"⟩, fun _ => none⟩
    ⟨"increment", [], []⟩ [] rfl

end Pinhole
